import Mathlib

/-!
Verification of `landingai/common.py`: the bitmap run-length decoder
`decode_bitmap_rle` and the prediction value objects
(`Prediction`, `ClassificationPrediction`, `OcrPrediction`,
`ObjectDetectionPrediction`, `SegmentationPrediction`).

The Python code is shallowly embedded: Python exceptions become an explicit
`PyErr` error type threaded through `Except`, Python's unbounded `int` becomes
`Int`, `re.split("(Z|N)", bitmap)` becomes `splitZN`, `zip(*[iter(l)]*2)`
becomes `pairUp`, and `int(...)` string parsing becomes `pyInt` (optional
surrounding whitespace, optional sign, decimal digits with single underscores
allowed between digits — `int("-3")` succeeds, `int("x")` raises ValueError).
NumPy's `np.array(..., dtype=np.uint8)` wraps values modulo 256 (`toU8`), and
`reshape` to `(h, w)` succeeds exactly when the element count is `h*w`,
filling row-major (`takeRows`).
-/

/-- The kinds of Python exceptions the embedded code can raise:
`KeyError` from `encoding_map[map_letter]`, `ValueError` from `int(num)` and
from `np.ndarray.reshape`, `NotImplementedError` from the base
`Prediction.num_predicted_pixels` property, and `ZeroDivisionError` from the
division in `percentage_predicted_pixels`.  The source defines no exception
classes of its own (in particular no `MalformedBitmapError` and no
`ShapeMismatchError`). -/
inductive PyErr where
  | keyError (key : String)
  | valueError (msg : String)
  | notImplementedError
  | zeroDivisionError
  deriving DecidableEq, Repr

deriving instance DecidableEq for Except

/-- `c` is one of the two characters of the regular expression `(Z|N)`
hard-coded in `decode_bitmap_rle`. -/
def isZN (c : Char) : Bool := decide (c = 'Z' ∨ c = 'N')

/-- ASCII whitespace stripped by Python's `int(str)`. -/
def isPySpace (c : Char) : Bool :=
  decide (c = ' ' ∨ c = '\t' ∨ c = '\n' ∨ c = '\r' ∨ c = '\x0b' ∨ c = '\x0c')

/-- Decimal digit test used by the model of Python's `int(str)`. -/
def isPyDigit (c : Char) : Bool := decide (48 ≤ c.toNat ∧ c.toNat ≤ 57)

/-- Numeric value of a decimal digit character. -/
def digitVal (c : Char) : Nat := c.toNat - 48

/-- Digits of a nonempty all-digit tail (single `_` allowed between digits),
accumulating the value, as Python's `int` accepts (`int("1_0") = 10`,
`int("1__0")` and `int("1_")` raise ValueError). -/
def parseDigitsAux (acc : Nat) : List Char → Option Nat
  | [] => some acc
  | c :: cs =>
    if isPyDigit c then parseDigitsAux (acc * 10 + digitVal c) cs
    else if c = '_' then
      match cs with
      | [] => none
      | d :: ds => if isPyDigit d then parseDigitsAux (acc * 10 + digitVal d) ds else none
    else none

/-- An unsigned decimal numeral as accepted by Python's `int(str)` after sign
handling: nonempty, starts with a digit. -/
def parseDigits : List Char → Option Nat
  | [] => none
  | c :: cs => if isPyDigit c then parseDigitsAux (digitVal c) cs else none

/-- Model of Python's `int(str)` on the character list of the string:
strip whitespace on both sides, optional single sign, decimal digits.
`none` models a `ValueError`. -/
def pyInt (s : List Char) : Option Int :=
  match ((s.dropWhile isPySpace).reverse.dropWhile isPySpace).reverse with
  | [] => none
  | c :: rest =>
    if c = '-' then (parseDigits rest).map (fun m => -(m : Int))
    else if c = '+' then (parseDigits rest).map (fun m => (m : Int))
    else (parseDigits (c :: rest)).map (fun m => (m : Int))

/-- Model of `re.split("(Z|N)", bitmap)`: split at every occurrence of `Z` or
`N`, keeping each delimiter as its own token (the regex group is captured).
`re.split` on the empty string yields `[""]`, and a delimiter at either end
contributes an adjacent empty token. -/
def splitZN : List Char → List (List Char)
  | [] => [[]]
  | c :: cs =>
    if isZN c then [] :: [c] :: splitZN cs
    else
      match splitZN cs with
      | t :: ts => (c :: t) :: ts
      | [] => [[c]]

/-- Model of `zip(*[iter(lst)] * 2)`: consecutive pairs, a trailing odd
element is dropped. -/
def pairUp {α : Type} : List α → List (α × α)
  | a :: b :: rest => (a, b) :: pairUp rest
  | _ => []

/-- The loop body of `decode_bitmap_rle`: for each `(num, map_letter)` pair,
`encoding_map[map_letter]` (KeyError when absent), then `int(num)`
(ValueError when unparsable), then extend the output with
`[int(map_number)] * int(num)` — which is empty when `int(num)` is negative,
exactly as Python list repetition behaves. -/
def decodePairs (em : List (String × Int)) : List (List Char × List Char) → Except PyErr (List Int)
  | [] => .ok []
  | (num, letter) :: rest =>
    match List.lookup (String.mk letter) em with
    | none => .error (.keyError (String.mk letter))
    | some v =>
      match pyInt num with
      | none => .error (.valueError (String.mk num))
      | some n =>
        match decodePairs em rest with
        | .error e => .error e
        | .ok tail => .ok (List.replicate n.toNat v ++ tail)

/-- `decode_bitmap_rle(bitmap, encoding_map)` from `landingai/common.py`:
`re.split("(Z|N)", bitmap)`, pair the tokens up, and run the decoding loop. -/
def decode_bitmap_rle (bitmap : String) (encoding_map : List (String × Int)) :
    Except PyErr (List Int) :=
  decodePairs encoding_map (pairUp (splitZN bitmap.data))

/-- Split at every occurrence of a character of `ds`, keeping each delimiter
as its own token.  This generalizes `splitZN` to an arbitrary delimiter set;
it is the splitting step the specification describes. -/
def splitOnDelims (ds : List Char) : List Char → List (List Char)
  | [] => [[]]
  | c :: cs =>
    if c ∈ ds then [] :: [c] :: splitOnDelims ds cs
    else
      match splitOnDelims ds cs with
      | t :: ts => (c :: t) :: ts
      | [] => [[c]]

/-- The single-character keys of an encoding map, in order. -/
def keysChars (em : List (String × Int)) : List Char :=
  em.filterMap fun p =>
    match p.1.data with
    | [c] => some c
    | _ => none

/-- Modelled from the spec: the decoding algorithm as the specification words
it — "split the string on occurrences of any delimiter character while
retaining the delimiters themselves as tokens", where "the delimiter set is
exactly the keys of `encoding_map`"; the pairing and lookup steps are shared
with the code.  This definition exists only to be compared with
`decode_bitmap_rle`, whose split is the hard-coded `re.split("(Z|N)", ...)`. -/
def decode_bitmap_rle_specAlg (bitmap : String) (encoding_map : List (String × Int)) :
    Except PyErr (List Int) :=
  decodePairs encoding_map (pairUp (splitOnDelims (keysChars encoding_map) bitmap.data))

/-- The decimal digit characters, indexed by value. -/
def digitChar (k : Nat) : Char :=
  ['0', '1', '2', '3', '4', '5', '6', '7', '8', '9'].getD k '9'

/-- Decimal numeral of `n`, most significant digit first, with fuel to keep
the recursion structural (any `fuel > n` is enough). -/
def natDigitsAux : Nat → Nat → List Char
  | 0, _ => []
  | fuel + 1, n =>
    if n < 10 then [digitChar n]
    else natDigitsAux fuel (n / 10) ++ [digitChar (n % 10)]

/-- Decimal numeral of `n`, most significant digit first. -/
def natDigits (n : Nat) : List Char := natDigitsAux (n + 1) n

/-- Render a list of `(run-length, delimiter)` pairs as the alternating
`<decimal><delimiter>` token string of the bitmap format. -/
def renderPairsL (l : List (Nat × Char)) : List Char :=
  l.flatMap fun p => natDigits p.1 ++ [p.2]

/-- Extend a run list on the left with one occurrence of `v`: merge into the
first run when it has the same value, else start a new run. -/
def consRun (v : Int) : List (Nat × Int) → List (Nat × Int)
  | [] => [(1, v)]
  | (k, w) :: rs => if w = v then (k + 1, v) :: rs else (1, v) :: (k, w) :: rs

/-- Maximal runs of equal consecutive values, as `(count, value)` pairs. -/
def rleRuns : List Int → List (Nat × Int)
  | [] => []
  | v :: rest => consRun v (rleRuns rest)

/-- Modelled from the spec: the repository contains no encoder, and the
spec's round-trip property speaks of "an RLE-encoding of M" — alternating
`(decimal count, delimiter)` tokens for the maximal runs of the flattened
mask, the delimiter of a run being the character assigned to its bit value. -/
def encodeRLE (charOf : Int → Char) (M : List Int) : String :=
  String.mk (renderPairsL ((rleRuns M).map fun r => (r.1, charOf r.2)))

/-- `np.array(..., dtype=np.uint8)` element conversion: wrap modulo 256. -/
def toU8 (v : Int) : Nat := (v % 256).toNat

/-- Row-major reshape into `h` rows of `w` entries (callers establish that
the list has exactly `h * w` elements, as `np.reshape` checks). -/
def takeRows {α : Type} : Nat → Nat → List α → List (List α)
  | 0, _, _ => []
  | h + 1, w, l => l.take w :: takeRows h w (l.drop w)

/-- `np.count_nonzero` on a two-dimensional array. -/
def countNonzero (m : List (List Nat)) : Nat :=
  m.flatten.countP fun v => !(v == 0)

/-- `Prediction`: base class; only the confidence score, plus the
`num_predicted_pixels` property that raises `NotImplementedError`.
The `float` score is modelled as a rational. -/
structure Prediction where
  score : ℚ

/-- The base `num_predicted_pixels` property: `raise NotImplementedError()`. -/
def Prediction.num_predicted_pixels (_ : Prediction) : Except PyErr Int :=
  .error .notImplementedError

/-- `ClassificationPrediction`: label name and label index. -/
structure ClassificationPrediction extends Prediction where
  label_name : String
  label_index : Int

/-- `OcrPrediction`: predicted text and a quadrilateral location.  It does
not override `num_predicted_pixels`. -/
structure OcrPrediction extends Prediction where
  text : String
  location : List (Int × Int)

/-- `OcrPrediction` inherits `num_predicted_pixels` from `Prediction`
unchanged (Python attribute lookup finds the base property). -/
def OcrPrediction.num_predicted_pixels (p : OcrPrediction) : Except PyErr Int :=
  p.toPrediction.num_predicted_pixels

/-- `ObjectDetectionPrediction`: id and bounding box
`(xmin, ymin, xmax, ymax)`. -/
structure ObjectDetectionPrediction extends ClassificationPrediction where
  id : String
  bboxes : Int × Int × Int × Int

/-- `(self.bboxes[2] - self.bboxes[0]) * (self.bboxes[3] - self.bboxes[1])`;
no validation of the box is performed anywhere, so the value can be
negative. -/
def ObjectDetectionPrediction.num_predicted_pixels (p : ObjectDetectionPrediction) : Int :=
  (p.bboxes.2.2.1 - p.bboxes.1) * (p.bboxes.2.2.2 - p.bboxes.2.1)

/-- `SegmentationPrediction`: id, encoded mask, encoding map, mask shape. -/
structure SegmentationPrediction extends ClassificationPrediction where
  id : String
  encoded_mask : String
  encoding_map : List (String × Int)
  mask_shape : Nat × Nat

/-- `decoded_boolean_mask`: decode the bitmap, convert to a uint8 array and
reshape to `mask_shape`.  A decode exception propagates; `np.reshape` raises
`ValueError` when the element count differs from `h * w`. -/
def SegmentationPrediction.decoded_boolean_mask (p : SegmentationPrediction) :
    Except PyErr (List (List Nat)) :=
  match decode_bitmap_rle p.encoded_mask p.encoding_map with
  | .error e => .error e
  | .ok flat =>
    if flat.length = p.mask_shape.1 * p.mask_shape.2 then
      .ok (takeRows p.mask_shape.1 p.mask_shape.2 (flat.map toU8))
    else .error (.valueError "cannot reshape array")

/-- `np.count_nonzero(self.decoded_boolean_mask)`. -/
def SegmentationPrediction.num_predicted_pixels (p : SegmentationPrediction) :
    Except PyErr Nat :=
  (p.decoded_boolean_mask).map countNonzero

/-- `np.count_nonzero(self.decoded_boolean_mask) / math.prod(self.mask_shape)`:
true division of Python ints, which raises `ZeroDivisionError` when the shape
product is zero; the `float` result is modelled as an exact rational. -/
def SegmentationPrediction.percentage_predicted_pixels (p : SegmentationPrediction) :
    Except PyErr ℚ :=
  match p.decoded_boolean_mask with
  | .error e => .error e
  | .ok m =>
    if p.mask_shape.1 * p.mask_shape.2 = 0 then .error .zeroDivisionError
    else .ok ((countNonzero m : ℚ) / ((p.mask_shape.1 * p.mask_shape.2 : Nat) : ℚ))

theorem isPyDigit_digitChar (k : Nat) : isPyDigit (digitChar k) = true := by
  rcases Nat.lt_or_ge k 10 with h | h
  · interval_cases k <;> decide
  · have : digitChar k = '9' := by
      unfold digitChar
      exact List.getD_eq_default _ _ (by simpa using h)
    rw [this]; decide

theorem digitVal_digitChar {k : Nat} (h : k < 10) : digitVal (digitChar k) = k := by
  interval_cases k <;> decide

theorem pyDigit_props {c : Char} (h : isPyDigit c = true) :
    isZN c = false ∧ isPySpace c = false ∧ c ≠ '-' ∧ c ≠ '+' ∧ c ≠ '_' := by
  refine ⟨?_, ?_, ?_, ?_, ?_⟩
  · rw [isZN]; apply decide_eq_false
    rintro (rfl | rfl) <;> exact absurd h (by decide)
  · rw [isPySpace]; apply decide_eq_false
    rintro (rfl | rfl | rfl | rfl | rfl | rfl) <;> exact absurd h (by decide)
  · rintro rfl; exact absurd h (by decide)
  · rintro rfl; exact absurd h (by decide)
  · rintro rfl; exact absurd h (by decide)

theorem natDigitsAux_digits :
    ∀ fuel n : Nat, ∀ c ∈ natDigitsAux fuel n, isPyDigit c = true := by
  intro fuel
  induction fuel with
  | zero => intro n c hc; simp [natDigitsAux] at hc
  | succ f ih =>
    intro n c hc
    by_cases h10 : n < 10
    · simp [natDigitsAux, h10] at hc
      rw [hc]; exact isPyDigit_digitChar n
    · simp [natDigitsAux, h10] at hc
      rcases hc with hc | hc
      · exact ih _ c hc
      · rw [hc]; exact isPyDigit_digitChar _

theorem natDigits_digits (n : Nat) : ∀ c ∈ natDigits n, isPyDigit c = true :=
  natDigitsAux_digits (n + 1) n

theorem natDigits_ne_nil (n : Nat) : natDigits n ≠ [] := by
  unfold natDigits natDigitsAux
  by_cases h10 : n < 10 <;> simp [h10]

theorem parseDigitsAux_all_digits :
    ∀ ds : List Char, (∀ c ∈ ds, isPyDigit c = true) → ∀ acc : Nat,
      parseDigitsAux acc ds = some (ds.foldl (fun a c => a * 10 + digitVal c) acc) := by
  intro ds
  induction ds with
  | nil => intro _ acc; rfl
  | cons c cs ih =>
    intro h acc
    have hc : isPyDigit c = true := h c (by simp)
    rw [parseDigitsAux.eq_def]
    simp only [hc, if_true, List.foldl_cons]
    exact ih (fun d hd => h d (by simp [hd])) _

theorem natDigitsAux_foldl (fuel : Nat) :
    ∀ n acc : Nat, n < fuel →
      (natDigitsAux fuel n).foldl (fun a c => a * 10 + digitVal c) acc =
        acc * 10 ^ (natDigitsAux fuel n).length + n := by
  induction fuel with
  | zero => intro n acc h; omega
  | succ f ih =>
    intro n acc h
    by_cases h10 : n < 10
    · simp only [natDigitsAux, if_pos h10, List.foldl_cons, List.foldl_nil,
        List.length_singleton, pow_one]
      rw [digitVal_digitChar h10]
    · have hn : 0 < n := by omega
      have hdiv : n / 10 < n := Nat.div_lt_self hn (by omega)
      have hdivf : n / 10 < f := by omega
      simp only [natDigitsAux, if_neg h10, List.foldl_append, List.foldl_cons,
        List.foldl_nil, List.length_append, List.length_singleton]
      rw [ih _ acc hdivf, digitVal_digitChar (Nat.mod_lt n (by omega))]
      have hdm : n / 10 * 10 + n % 10 = n := by omega
      calc (acc * 10 ^ (natDigitsAux f (n / 10)).length + n / 10) * 10 + n % 10
          = acc * (10 ^ (natDigitsAux f (n / 10)).length * 10) +
              (n / 10 * 10 + n % 10) := by ring
        _ = acc * 10 ^ ((natDigitsAux f (n / 10)).length + 1) + n := by
              rw [hdm, pow_succ]

theorem parseDigits_natDigits (n : Nat) : parseDigits (natDigits n) = some n := by
  rcases hl : natDigits n with _ | ⟨d, ds⟩
  · exact absurd hl (natDigits_ne_nil n)
  · have hall : ∀ c ∈ natDigits n, isPyDigit c = true := natDigits_digits n
    rw [hl] at hall
    have hd : isPyDigit d = true := hall d (by simp)
    rw [parseDigits, if_pos hd,
      parseDigitsAux_all_digits ds (fun c hc => hall c (by simp [hc]))]
    have hfold := natDigitsAux_foldl (n + 1) n 0 (by omega)
    rw [show natDigitsAux (n + 1) n = natDigits n from rfl, hl, List.foldl_cons] at hfold
    simp only [Nat.zero_mul, Nat.zero_add] at hfold
    rw [hfold]

theorem dropWhile_of_all_neg {α : Type} {p : α → Bool} :
    ∀ l : List α, (∀ c ∈ l, p c = false) → l.dropWhile p = l := by
  intro l
  induction l with
  | nil => intro _; rfl
  | cons c cs _ =>
    intro h
    rw [List.dropWhile_cons, if_neg (by simp [h c (by simp)])]

theorem pyInt_natDigits (n : Nat) : pyInt (natDigits n) = some (n : Int) := by
  have hall : ∀ c ∈ natDigits n, isPyDigit c = true := natDigits_digits n
  have hspace : ∀ c ∈ natDigits n, isPySpace c = false :=
    fun c hc => (pyDigit_props (hall c hc)).2.1
  have h1 : (natDigits n).dropWhile isPySpace = natDigits n :=
    dropWhile_of_all_neg _ hspace
  have h2 : (natDigits n).reverse.dropWhile isPySpace = (natDigits n).reverse :=
    dropWhile_of_all_neg _ (fun c hc => hspace c (List.mem_reverse.mp hc))
  have hp := parseDigits_natDigits n
  rcases hl : natDigits n with _ | ⟨d, ds⟩
  · exact absurd hl (natDigits_ne_nil n)
  · rw [hl] at hall h1 h2 hp
    have hd : isPyDigit d = true := hall d (by simp)
    have hdm : d ≠ '-' := (pyDigit_props hd).2.2.1
    have hdp : d ≠ '+' := (pyDigit_props hd).2.2.2.1
    show pyInt (d :: ds) = some (n : Int)
    simp only [pyInt, h1, h2, List.reverse_reverse]
    simp only [if_neg hdm, if_neg hdp, hp]
    rfl

theorem splitZN_ne_nil : ∀ cs : List Char, splitZN cs ≠ [] := by
  intro cs
  induction cs with
  | nil => simp [splitZN]
  | cons c cs ih =>
    rw [splitZN.eq_def]
    by_cases hc : isZN c = true
    · simp [hc]
    · simp only [hc, Bool.false_eq_true, if_false]
      rcases h : splitZN cs with _ | ⟨t, ts⟩
      · exact absurd h ih
      · simp

theorem splitZN_delim {c : Char} (cs : List Char) (h : isZN c = true) :
    splitZN (c :: cs) = [] :: [c] :: splitZN cs := by
  rw [splitZN.eq_def]
  simp [h]

theorem splitZN_append (xs ys : List Char) (h : ∀ c ∈ xs, isZN c = false) :
    splitZN (xs ++ ys) = (xs ++ (splitZN ys).headD []) :: (splitZN ys).tail := by
  induction xs with
  | nil =>
    rcases hy : splitZN ys with _ | ⟨t, ts⟩
    · exact absurd hy (splitZN_ne_nil ys)
    · simp [hy]
  | cons x xs ih =>
    have hx : isZN x = false := h x (by simp)
    rw [List.cons_append, splitZN.eq_def]
    simp only [hx, Bool.false_eq_true, if_false]
    rw [ih (fun c hc => h c (by simp [hc]))]
    simp

theorem pairUp_cons {α : Type} (a b : α) (l : List α) :
    pairUp (a :: b :: l) = (a, b) :: pairUp l := rfl

theorem pairUp_splitZN_render :
    ∀ l : List (Nat × Char), (∀ p ∈ l, isZN p.2 = true) →
      pairUp (splitZN (renderPairsL l)) = l.map fun p => (natDigits p.1, [p.2]) := by
  intro l
  induction l with
  | nil => intro _; rfl
  | cons p l ih =>
    intro h
    have hp : isZN p.2 = true := h p (by simp)
    have hdig : ∀ c ∈ natDigits p.1, isZN c = false :=
      fun c hc => (pyDigit_props (natDigits_digits p.1 c hc)).1
    have hren : renderPairsL (p :: l) = natDigits p.1 ++ (p.2 :: renderPairsL l) := by
      simp [renderPairsL]
    rw [hren, splitZN_append _ _ hdig, splitZN_delim _ hp]
    simp only [List.headD_cons, List.tail_cons, List.append_nil]
    rw [pairUp_cons, ih (fun q hq => h q (by simp [hq])), List.map_cons]

theorem decodePairs_render (em : List (String × Int)) :
    ∀ l : List (Nat × Char),
      (∀ p ∈ l, (List.lookup (String.mk [p.2]) em).isSome = true) →
      decodePairs em (l.map fun p => (natDigits p.1, [p.2])) =
        .ok (l.flatMap fun p =>
          List.replicate p.1 ((List.lookup (String.mk [p.2]) em).getD 0)) := by
  intro l
  induction l with
  | nil => intro _; rfl
  | cons p l ih =>
    intro h
    obtain ⟨v, hv⟩ := Option.isSome_iff_exists.mp (h p (by simp))
    rw [List.map_cons, decodePairs, hv, pyInt_natDigits,
      ih (fun q hq => h q (by simp [hq]))]
    simp [hv]

theorem rleRuns_expand :
    ∀ M : List Int, ((rleRuns M).flatMap fun r => List.replicate r.1 r.2) = M := by
  intro M
  induction M with
  | nil => rfl
  | cons v rest ih =>
    rw [rleRuns]
    rcases h : rleRuns rest with _ | ⟨⟨k, w⟩, rs⟩
    · rw [h] at ih
      simp at ih
      simp [consRun, ih]
    · rw [h] at ih
      rw [consRun]
      by_cases hw : w = v
      · subst hw
        rw [if_pos rfl]
        simp only [List.flatMap_cons] at ih ⊢
        rw [List.replicate_succ, List.cons_append, ih]
      · rw [if_neg hw]
        simp only [List.flatMap_cons] at ih ⊢
        rw [List.replicate_one, List.singleton_append, ih]

theorem rleRuns_mem :
    ∀ (M : List Int) (p : Nat × Int), p ∈ rleRuns M → p.2 ∈ M := by
  intro M
  induction M with
  | nil => intro p hp; simp [rleRuns] at hp
  | cons v rest ih =>
    intro p hp
    rw [rleRuns] at hp
    rcases h : rleRuns rest with _ | ⟨⟨k, w⟩, rs⟩
    · rw [h] at hp
      simp [consRun] at hp
      simp [hp]
    · rw [h, consRun] at hp
      by_cases hw : w = v
      · rw [if_pos hw] at hp
        rcases List.mem_cons.mp hp with hp | hp
        · simp [hp]
        · exact List.mem_cons_of_mem v (ih p (h ▸ List.mem_cons_of_mem _ hp))
      · rw [if_neg hw] at hp
        rcases List.mem_cons.mp hp with hp | hp
        · simp [hp]
        · exact List.mem_cons_of_mem v (ih p (h ▸ hp))

theorem takeRows_flatten {α : Type} :
    ∀ (h w : Nat) (l : List α), l.length = h * w → (takeRows h w l).flatten = l := by
  intro h
  induction h with
  | zero =>
    intro w l hl
    simp at hl
    simp [takeRows, hl]
  | succ n ih =>
    intro w l hl
    have hdrop : (l.drop w).length = n * w := by
      rw [List.length_drop, hl]
      have : (n + 1) * w = n * w + w := by ring
      omega
    rw [takeRows, List.flatten_cons, ih w _ hdrop, List.take_append_drop]

theorem splitOnDelims_eq_splitZN (ds : List Char)
    (h : ∀ c : Char, c ∈ ds ↔ isZN c = true) :
    ∀ cs : List Char, splitOnDelims ds cs = splitZN cs := by
  intro cs
  induction cs with
  | nil => rfl
  | cons c cs ih =>
    rw [splitOnDelims.eq_def, splitZN.eq_def]
    by_cases hc : isZN c = true
    · have hm : c ∈ ds := (h c).mpr hc
      simp [hm, hc, ih]
    · have hm : c ∉ ds := fun hmm => hc ((h c).mp hmm)
      simp [hm, hc, ih]

/-- C1, counterexample: the claim says the delimiter set is exactly the keys
of `encoding_map`, so with `{"A": 0}` the bitmap `"1A"` should split on `A`
and decode to `[0]` (as the spec-worded algorithm `decode_bitmap_rle_specAlg`
indeed does) — but `decode_bitmap_rle` splits on the hard-coded `(Z|N)`
regex, finds one token and no pair, and returns `[]`. -/
theorem decode_ignores_map_keys_cex :
    decode_bitmap_rle "1A" [("A", 0)] = .ok [] ∧
      decode_bitmap_rle_specAlg "1A" [("A", 0)] = .ok [0] := by
  constructor <;> decide

/-- C1 (amended): `decode_bitmap_rle` always splits on the fixed delimiter
set `{Z, N}`, regardless of `encoding_map`; it agrees with the
split-on-the-keys algorithm of the spec exactly when the single-character
keys of `encoding_map` are `Z` and `N`. -/
theorem decode_splits_on_fixed_ZN (bitmap : String) (em : List (String × Int))
    (hk : keysChars em = ['Z', 'N'] ∨ keysChars em = ['N', 'Z']) :
    decode_bitmap_rle bitmap em = decode_bitmap_rle_specAlg bitmap em := by
  unfold decode_bitmap_rle decode_bitmap_rle_specAlg
  have hiff : ∀ c : Char, c ∈ keysChars em ↔ isZN c = true := by
    rcases hk with hk | hk <;> rw [hk] <;> intro c <;> (simp [isZN]; try tauto)
  rw [splitOnDelims_eq_splitZN _ hiff]

/-- Witness for C1's amended theorem at the map `{"Z": 0, "N": 1}`. -/
theorem decode_splits_on_fixed_ZN_witness :
    decode_bitmap_rle "10N" [("Z", 0), ("N", 1)] =
      decode_bitmap_rle_specAlg "10N" [("Z", 0), ("N", 1)] :=
  decode_splits_on_fixed_ZN "10N" [("Z", 0), ("N", 1)] (Or.inl (by decide))

/-- C2, counterexample: `"-3Z"` contains the run-length token `"-3"`, which
is not a valid non-negative integer, yet `decode_bitmap_rle` does not fail at
all: Python's `int("-3")` succeeds and `[0] * (-3)` is empty, so the call
silently returns `[]` (and the source defines no `MalformedBitmapError`
class anywhere). -/
theorem decode_negative_run_silent_cex :
    decode_bitmap_rle "-3Z" [("Z", 0)] = .ok [] := by decide

/-- C2 (amended): on a bitmap whose first pair is a token `pre` followed by a
delimiter `c` (necessarily `Z` or `N`), a delimiter absent from
`encoding_map` raises `KeyError`; with the delimiter present, a run-length
token rejected by `int(...)` raises `ValueError`; and a negative run-length
raises nothing — it contributes an empty run and decoding continues with the
rest of the string. -/
theorem decode_malformed_token_errors (em : List (String × Int))
    (pre suffix : List Char) (c : Char)
    (hpre : ∀ x ∈ pre, isZN x = false) (hc : isZN c = true) :
    (List.lookup (String.mk [c]) em = none →
      decode_bitmap_rle (String.mk (pre ++ c :: suffix)) em =
        .error (.keyError (String.mk [c]))) ∧
    (∀ v : Int, List.lookup (String.mk [c]) em = some v → pyInt pre = none →
      decode_bitmap_rle (String.mk (pre ++ c :: suffix)) em =
        .error (.valueError (String.mk pre))) ∧
    (∀ (v : Int) (k : Nat), List.lookup (String.mk [c]) em = some v →
      pyInt pre = some (Int.negSucc k) →
      decode_bitmap_rle (String.mk (pre ++ c :: suffix)) em =
        decode_bitmap_rle (String.mk suffix) em) := by
  have hpair : pairUp (splitZN (pre ++ c :: suffix)) =
      (pre, [c]) :: pairUp (splitZN suffix) := by
    rw [splitZN_append _ _ hpre, splitZN_delim _ hc]
    simp [pairUp_cons]
  refine ⟨?_, ?_, ?_⟩
  · intro hnone
    unfold decode_bitmap_rle
    rw [show (String.mk (pre ++ c :: suffix)).data = pre ++ c :: suffix from rfl,
      hpair, decodePairs, hnone]
  · intro v hv hnum
    unfold decode_bitmap_rle
    rw [show (String.mk (pre ++ c :: suffix)).data = pre ++ c :: suffix from rfl,
      hpair, decodePairs, hv, hnum]
  · intro v k hv hnum
    unfold decode_bitmap_rle
    rw [show (String.mk (pre ++ c :: suffix)).data = pre ++ c :: suffix from rfl,
      show (String.mk suffix).data = suffix from rfl, hpair, decodePairs, hv, hnum]
    rcases hres : decodePairs em (pairUp (splitZN suffix)) with e | tail <;> simp [hres]

/-- Witness for C2's amended theorem: the unparsable token `"x"` before a
known delimiter raises `ValueError`. -/
theorem decode_malformed_token_errors_witness :
    decode_bitmap_rle "xZ" [("Z", 0)] = .error (.valueError "x") :=
  (decode_malformed_token_errors [("Z", 0)] ['x'] [] 'Z' (by decide)
    (by decide)).2.1 0 (by decide) (by decide)

/-- C3, counterexample: a decoded bit count (3) different from
`height × width` (2) makes the first access to `decoded_boolean_mask` fail,
but with NumPy's reshape `ValueError` — the source defines no
`ShapeMismatchError` class, so no such error kind can be raised. -/
theorem shape_mismatch_error_kind_cex :
    (⟨⟨⟨1⟩, "s", 1⟩, "i3", "3N", [("N", 1)], (1, 2)⟩ :
        SegmentationPrediction).decoded_boolean_mask =
      .error (.valueError "cannot reshape array") := by decide

/-- C3 (amended): when the decoded bit count differs from `height × width`,
the first access to `decoded_boolean_mask` fails with the reshape
`ValueError` (not a dedicated `ShapeMismatchError`, which does not exist in
the source); when it is equal, the mask is the flat sequence reshaped into
`(height, width)` rows in row-major order (entries cast to uint8). -/
theorem decoded_boolean_mask_reshape (p : SegmentationPrediction) (flat : List Int)
    (hd : decode_bitmap_rle p.encoded_mask p.encoding_map = .ok flat) :
    (flat.length ≠ p.mask_shape.1 * p.mask_shape.2 →
      p.decoded_boolean_mask = .error (.valueError "cannot reshape array")) ∧
    (flat.length = p.mask_shape.1 * p.mask_shape.2 →
      p.decoded_boolean_mask =
        .ok (takeRows p.mask_shape.1 p.mask_shape.2 (flat.map toU8))) := by
  unfold SegmentationPrediction.decoded_boolean_mask
  rw [hd]
  constructor
  · intro hne; simp [hne]
  · intro heq; simp [heq]

/-- Witness for C3's amended theorem: a matching shape reshapes row-major. -/
theorem decoded_boolean_mask_reshape_witness :
    (⟨⟨⟨1⟩, "s", 1⟩, "iw3", "2Z", [("Z", 0)], (1, 2)⟩ :
        SegmentationPrediction).decoded_boolean_mask = .ok [[0, 0]] :=
  (decoded_boolean_mask_reshape _ [0, 0] (by decide)).2 (by decide)

/-- C4, counterexample: with the encoding map `{"A": 0, "B": 1}` (distinct
single characters for bits 0 and 1), the mask `[0]` RLE-encodes to `"1A"`,
but decoding it does not reproduce `[0]`: the decoder splits only on `Z`/`N`
and returns `[]`. -/
theorem roundtrip_fails_nonZN_map_cex :
    decode_bitmap_rle (encodeRLE (fun v => if v = 1 then 'B' else 'A') [0])
      [("A", 0), ("B", 1)] ≠ .ok [0] := by decide

/-- C4 (amended): the round trip holds exactly for encoding maps whose
characters for bits 0 and 1 are drawn from the fixed delimiter set `{Z, N}`:
for any 0/1 mask, RLE-encoding with such characters and decoding with a map
sending them back to 0 and 1 reproduces the flattened mask. -/
theorem decode_encode_roundtrip (M : List Int) (em : List (String × Int))
    (charOf : Int → Char) (hM : ∀ v ∈ M, v = 0 ∨ v = 1)
    (hc0 : isZN (charOf 0) = true) (hc1 : isZN (charOf 1) = true)
    (hl0 : List.lookup (String.mk [charOf 0]) em = some 0)
    (hl1 : List.lookup (String.mk [charOf 1]) em = some 1) :
    decode_bitmap_rle (encodeRLE charOf M) em = .ok M := by
  unfold decode_bitmap_rle encodeRLE
  rw [show (String.mk (renderPairsL ((rleRuns M).map fun r => (r.1, charOf r.2)))).data =
      renderPairsL ((rleRuns M).map fun r => (r.1, charOf r.2)) from rfl]
  have hval : ∀ r ∈ rleRuns M, List.lookup (String.mk [charOf r.2]) em = some r.2 := by
    intro r hr
    rcases hM r.2 (rleRuns_mem M r hr) with h0 | h0 <;> rw [h0] <;> assumption
  have hzn : ∀ q ∈ (rleRuns M).map fun r => (r.1, charOf r.2), isZN q.2 = true := by
    intro q hq
    obtain ⟨r, hr, rfl⟩ := List.mem_map.mp hq
    rcases hM r.2 (rleRuns_mem M r hr) with h0 | h0 <;> rw [h0] <;> assumption
  have hsome : ∀ q ∈ (rleRuns M).map fun r => (r.1, charOf r.2),
      (List.lookup (String.mk [q.2]) em).isSome = true := by
    intro q hq
    obtain ⟨r, hr, rfl⟩ := List.mem_map.mp hq
    rw [hval r hr]
    rfl
  rw [pairUp_splitZN_render _ hzn, decodePairs_render em _ hsome]
  have hflat : ∀ rs : List (Nat × Int),
      (∀ r ∈ rs, List.lookup (String.mk [charOf r.2]) em = some r.2) →
      ((rs.map fun r => (r.1, charOf r.2)).flatMap fun p =>
          List.replicate p.1 ((List.lookup (String.mk [p.2]) em).getD 0)) =
        rs.flatMap fun r => List.replicate r.1 r.2 := by
    intro rs
    induction rs with
    | nil => intro _; rfl
    | cons r rs ih =>
      intro h
      simp only [List.map_cons, List.flatMap_cons]
      rw [h r (by simp), ih (fun q hq => h q (by simp [hq]))]
      rfl
  rw [hflat (rleRuns M) hval, rleRuns_expand]

/-- Witness for C4's amended theorem: round trip of the mask `[1,0,0,1]`
with `{"Z": 0, "N": 1}`. -/
theorem decode_encode_roundtrip_witness :
    decode_bitmap_rle (encodeRLE (fun v => if v = 1 then 'N' else 'Z') [1, 0, 0, 1])
      [("Z", 0), ("N", 1)] = .ok [1, 0, 0, 1] :=
  decode_encode_roundtrip [1, 0, 0, 1] [("Z", 0), ("N", 1)] _ (by decide)
    (by decide) (by decide) (by decide) (by decide)

/-- C5, counterexample: `"2B"` is a well-formed (count, delimiter) bitmap
over the delimiter `B` of the map `{"B": 1}`, so the claim requires the
result `[1, 1]` — but `decode_bitmap_rle` does not treat `B` as a delimiter
and returns `[]`. -/
theorem decode_wellformed_nonZN_cex :
    decode_bitmap_rle "2B" [("B", 1)] = .ok [] ∧
      decode_bitmap_rle "2B" [("B", 1)] ≠ .ok [1, 1] := by
  constructor <;> decide

/-- C5 (amended): for every well-formed bitmap of (count, delimiter) pairs
whose delimiters are drawn from the fixed set `{Z, N}` and are keys of the
encoding map, `decode_bitmap_rle` returns, in input order, each delimiter's
mapped bit value repeated count times; in particular
`decode("5Z3N2Z", {"Z": 0, "N": 1}) = [0,0,0,0,0,1,1,1,0,0]`. -/
theorem decode_wellformed_pairs (l : List (Nat × Char)) (em : List (String × Int))
    (h : ∀ p ∈ l, isZN p.2 = true ∧ (List.lookup (String.mk [p.2]) em).isSome = true) :
    decode_bitmap_rle (String.mk (renderPairsL l)) em =
      .ok (l.flatMap fun p =>
        List.replicate p.1 ((List.lookup (String.mk [p.2]) em).getD 0)) := by
  unfold decode_bitmap_rle
  rw [show (String.mk (renderPairsL l)).data = renderPairsL l from rfl,
    pairUp_splitZN_render l (fun p hp => (h p hp).1),
    decodePairs_render em l (fun p hp => (h p hp).2)]

/-- Witness for C5's amended theorem: the spec's own example. -/
theorem decode_wellformed_pairs_witness :
    decode_bitmap_rle "5Z3N2Z" [("Z", 0), ("N", 1)] =
      .ok [0, 0, 0, 0, 0, 1, 1, 1, 0, 0] :=
  decode_wellformed_pairs [(5, 'Z'), (3, 'N'), (2, 'Z')] [("Z", 0), ("N", 1)]
    (by decide)

/-- C6, counterexample: two divergences from the claim.  With mask_shape
`(0, 0)` the decode succeeds with bit count `0 = 0×0`, yet
`percentage_predicted_pixels` is not a value in `[0, 1]` — the division by
`math.prod((0, 0)) = 0` raises `ZeroDivisionError`.  And with encoding map
`{"Z": 2}` the decoded mask `[[2]]` has zero 1-bits, yet
`num_predicted_pixels` (which counts nonzeros, not ones) returns 1. -/
theorem segmentation_pixel_stats_cex :
    (⟨⟨⟨1⟩, "s", 1⟩, "i6a", "", [("Z", 0)], (0, 0)⟩ :
        SegmentationPrediction).percentage_predicted_pixels =
      .error .zeroDivisionError ∧
    (⟨⟨⟨1⟩, "s", 1⟩, "i6b", "1Z", [("Z", 2)], (1, 1)⟩ :
        SegmentationPrediction).decoded_boolean_mask = .ok [[2]] ∧
    (⟨⟨⟨1⟩, "s", 1⟩, "i6b", "1Z", [("Z", 2)], (1, 1)⟩ :
        SegmentationPrediction).num_predicted_pixels = .ok 1 := by
  refine ⟨by decide, by decide, by decide⟩

/-- C6 (amended): for a SegmentationPrediction whose decode succeeds with
bit count equal to `height × width`, where the shape is nonempty and the
decoded values are bits (0/1), `num_predicted_pixels` is the count of 1-bits
and `percentage_predicted_pixels` is that count divided by
`height × width`, a value in `[0, 1]`. -/
theorem segmentation_pixel_stats (p : SegmentationPrediction) (flat : List Int)
    (hd : decode_bitmap_rle p.encoded_mask p.encoding_map = .ok flat)
    (hlen : flat.length = p.mask_shape.1 * p.mask_shape.2)
    (hpos : 0 < p.mask_shape.1 * p.mask_shape.2)
    (hbits : ∀ v ∈ flat, v = 0 ∨ v = 1) :
    p.num_predicted_pixels = .ok (flat.countP fun v => v == 1) ∧
    p.percentage_predicted_pixels =
      .ok (((flat.countP fun v => v == 1 : Nat) : ℚ) /
        ((p.mask_shape.1 * p.mask_shape.2 : Nat) : ℚ)) ∧
    (0 : ℚ) ≤ ((flat.countP fun v => v == 1 : Nat) : ℚ) /
        ((p.mask_shape.1 * p.mask_shape.2 : Nat) : ℚ) ∧
    ((flat.countP fun v => v == 1 : Nat) : ℚ) /
        ((p.mask_shape.1 * p.mask_shape.2 : Nat) : ℚ) ≤ 1 := by
  have hmask : p.decoded_boolean_mask =
      .ok (takeRows p.mask_shape.1 p.mask_shape.2 (flat.map toU8)) := by
    unfold SegmentationPrediction.decoded_boolean_mask
    rw [hd]
    simp [hlen]
  have hcount : countNonzero (takeRows p.mask_shape.1 p.mask_shape.2 (flat.map toU8)) =
      flat.countP fun v => v == 1 := by
    unfold countNonzero
    rw [takeRows_flatten _ _ _ (by rw [List.length_map]; exact hlen),
      List.countP_map]
    apply List.countP_congr
    intro v hv
    rcases hbits v hv with rfl | rfl <;> decide
  refine ⟨?_, ?_, ?_, ?_⟩
  · unfold SegmentationPrediction.num_predicted_pixels
    rw [hmask]
    simp [Except.map, hcount]
  · unfold SegmentationPrediction.percentage_predicted_pixels
    rw [hmask]
    have hne : ¬(p.mask_shape.1 * p.mask_shape.2 = 0) := by omega
    simp [hne, hcount]
  · apply div_nonneg (by positivity) (by positivity)
  · rw [div_le_one (by exact_mod_cast hpos)]
    have hle : (flat.countP fun v => v == 1) ≤ p.mask_shape.1 * p.mask_shape.2 := by
      calc (flat.countP fun v => v == 1) ≤ flat.length := List.countP_le_length _
        _ = _ := hlen
    exact_mod_cast hle

/-- Witness for C6's amended theorem: the spec's example, mask_shape (2,2)
and decoded bits [1,0,0,1]: 2 predicted pixels, percentage 1/2. -/
theorem segmentation_pixel_stats_witness :
    (⟨⟨⟨1⟩, "s", 1⟩, "i6w", "1N2Z1N", [("Z", 0), ("N", 1)], (2, 2)⟩ :
        SegmentationPrediction).num_predicted_pixels = .ok 2 ∧
    (⟨⟨⟨1⟩, "s", 1⟩, "i6w", "1N2Z1N", [("Z", 0), ("N", 1)], (2, 2)⟩ :
        SegmentationPrediction).percentage_predicted_pixels = .ok ((1 : ℚ) / 2) := by
  have h := segmentation_pixel_stats
    (⟨⟨⟨1⟩, "s", 1⟩, "i6w", "1N2Z1N", [("Z", 0), ("N", 1)], (2, 2)⟩ :
      SegmentationPrediction)
    [1, 0, 0, 1] (by decide) (by decide) (by decide) (by decide)
  refine ⟨h.1, ?_⟩
  rw [h.2.1]
  norm_num

/-- C7: for every ObjectDetectionPrediction, `num_predicted_pixels` is
`(xmax − xmin) × (ymax − ymin)`; for bbox (10, 10, 30, 40) it is 600. -/
theorem objdet_num_predicted_pixels :
    (∀ (sc : ℚ) (nm id : String) (idx x0 y0 x1 y1 : Int),
      (⟨⟨⟨sc⟩, nm, idx⟩, id, (x0, y0, x1, y1)⟩ :
        ObjectDetectionPrediction).num_predicted_pixels = (x1 - x0) * (y1 - y0)) ∧
    (⟨⟨⟨1⟩, "screw", 0⟩, "uuid-1", (10, 10, 30, 40)⟩ :
        ObjectDetectionPrediction).num_predicted_pixels = 600 := by
  constructor
  · intro sc nm id idx x0 y0 x1 y1; rfl
  · decide

/-- C8: decoding the empty bitmap string returns the empty list for every
encoding map, raising nothing: `re.split` yields the single token `""`,
which forms no pair, and the loop body never runs. -/
theorem decode_empty_bitmap (em : List (String × Int)) :
    decode_bitmap_rle "" em = .ok [] := rfl

/-- C9: `OcrPrediction` does not override `num_predicted_pixels`, so the
inherited base property raises `NotImplementedError` — it never returns a
value — and the same holds for the base `Prediction` itself. -/
theorem ocr_num_predicted_pixels_raises :
    (∀ p : OcrPrediction,
      p.num_predicted_pixels = .error .notImplementedError ∧
        ∀ v : Int, p.num_predicted_pixels ≠ .ok v) ∧
    (∀ q : Prediction, q.num_predicted_pixels = .error .notImplementedError) := by
  refine ⟨fun p => ⟨rfl, fun v h => ?_⟩, fun q => rfl⟩
  simp [OcrPrediction.num_predicted_pixels, Prediction.num_predicted_pixels] at h

/-- C10: constructing an ObjectDetectionPrediction involves no bounding-box
geometry validation (the embedded constructor is total, as pydantic checks
only field types), and for an inverted box (`xmax < xmin`, `ymin < ymax`)
`num_predicted_pixels` is the negative product. -/
theorem objdet_no_bbox_validation (sc : ℚ) (nm id : String) (idx x0 y0 x1 y1 : Int)
    (hx : x1 < x0) (hy : y0 < y1) :
    (⟨⟨⟨sc⟩, nm, idx⟩, id, (x0, y0, x1, y1)⟩ :
        ObjectDetectionPrediction).num_predicted_pixels = (x1 - x0) * (y1 - y0) ∧
    (⟨⟨⟨sc⟩, nm, idx⟩, id, (x0, y0, x1, y1)⟩ :
        ObjectDetectionPrediction).num_predicted_pixels < 0 := by
  refine ⟨rfl, ?_⟩
  have h1 : x1 - x0 < 0 := by omega
  have h2 : (0 : Int) < y1 - y0 := by omega
  have h3 := mul_neg_of_neg_of_pos h1 h2
  exact h3

/-- Witness for C10 at bbox (30, 10, 10, 40): construction succeeds and
`num_predicted_pixels` is (10−30)×(40−10) = −600 < 0. -/
theorem objdet_no_bbox_validation_witness :
    (⟨⟨⟨1⟩, "car", 0⟩, "uuid-2", (30, 10, 10, 40)⟩ :
        ObjectDetectionPrediction).num_predicted_pixels = -600 ∧
    (⟨⟨⟨1⟩, "car", 0⟩, "uuid-2", (30, 10, 10, 40)⟩ :
        ObjectDetectionPrediction).num_predicted_pixels < 0 :=
  ⟨by decide,
    (objdet_no_bbox_validation 1 "car" "uuid-2" 0 30 10 10 40 (by decide)
      (by decide)).2⟩

